import Mathlib

/-!
Verification of `remove_embeddings.py`: a three-stage pipeline that loads a
JSON document from `insurance_knowledge.json`, deletes the key `"embedding"`
from each record of the top-level list, and writes the result back to the same
path, pretty-printed with `indent=2, ensure_ascii=False`.

The embedding below models JSON values as an inductive type (`JSON`), Python
dicts as ordered association lists (CPython dicts preserve insertion order and
have unique keys, so deleting the key `"embedding"` is removing every binding
whose key is `"embedding"`), and Python exceptions as an error type `PyErr`
threaded through `Except`.  File contents are modelled as `Option String`
(`none` = the path does not exist or is unreadable).
-/

/-- Errors the script can raise: `FileAccessError` (OSError/IOError on open),
`ParseError` (json.JSONDecodeError), `TypeError` (membership test or item
deletion on an unsupported value) and `KeyError` (deleting an absent key). -/
inductive PyErr where
  | fileAccessError
  | parseError
  | typeError
  | keyError
deriving DecidableEq

/-- JSON values as produced by `json.load`.  Objects are ordered association
lists, mirroring CPython dicts (insertion order preserved, keys unique).
Numbers are modelled as integers: the program never inspects a number beyond
copying it, and floating point does not embed shallowly. -/
inductive JSON where
  | null
  | bool (b : Bool)
  | num (n : Int)
  | str (s : String)
  | arr (xs : List JSON)
  | obj (kvs : List (String × JSON))

/-- Membership of a key in a record, i.e. Python `'embedding' in qa` for a
dict `qa`. -/
def hasKey (k : String) (kvs : List (String × JSON)) : Bool :=
  kvs.any (fun kv => kv.1 == k)

/-- Deleting the binding of key `k` from a record, i.e. Python
`del qa[k]` on a dict: the remaining bindings keep their values and their
relative order.  (With unique keys, removing every binding whose key is `k`
removes exactly the one binding Python removes.) -/
def delKey (k : String) (kvs : List (String × JSON)) : List (String × JSON) :=
  kvs.filter (fun kv => kv.1 != k)

/-- Whether the list of chars `needle` occurs contiguously in `hay`, used for
Python substring membership `needle in hay` on strings. -/
def infixOf (needle : List Char) : List Char → Bool
  | [] => needle.isEmpty
  | c :: cs => needle.isPrefixOf (c :: cs) || infixOf needle cs

/-- Python `needle in hay` for strings: substring occurrence. -/
def strContainsSub (needle hay : String) : Bool :=
  infixOf needle.toList hay.toList

/-- Python equality of a JSON value with the string `"embedding"`: only the
equal string compares equal (list membership `'embedding' in xs` uses this). -/
def strIsEmbedding (x : JSON) : Bool :=
  match x with
  | .str t => t == "embedding"
  | _ => false

/-- The membership test `'embedding' in qa` (line 9 of the script) with
Python semantics: key lookup on a dict, substring test on a string, element
equality on a list, and `TypeError` on non-container values. -/
def pyContains (qa : JSON) : Except PyErr Bool :=
  match qa with
  | .obj kvs => .ok (hasKey "embedding" kvs)
  | .str s => .ok (strContainsSub "embedding" s)
  | .arr xs => .ok (xs.any strIsEmbedding)
  | _ => .error .typeError

/-- The statement `del qa['embedding']` (line 10 of the script) with Python
semantics: removes the binding on a dict (`KeyError` if absent), `TypeError`
on any non-dict value (`del` by a string index is unsupported on lists and
strings). -/
def pyDelEmbedding (qa : JSON) : Except PyErr JSON :=
  match qa with
  | .obj kvs =>
    if hasKey "embedding" kvs then .ok (.obj (delKey "embedding" kvs))
    else .error .keyError
  | _ => .error .typeError

/-- One iteration of the loop body (lines 9-10): test membership of
`'embedding'`, delete it when present, otherwise leave the element alone; an
exception raised by either operation propagates. -/
def stripElem (qa : JSON) : Except PyErr JSON :=
  match pyContains qa with
  | .error e => .error e
  | .ok b => if b then pyDelEmbedding qa else .ok qa

/-- The whole loop `for qa in data` (lines 8-10) over a top-level JSON list:
elements are processed in order and the first raised exception aborts the
run. -/
def stripDoc : List JSON → Except PyErr (List JSON)
  | [] => .ok []
  | qa :: rest =>
    match stripElem qa with
    | .error e => .error e
    | .ok qa' =>
      match stripDoc rest with
      | .error e => .error e
      | .ok rest' => .ok (qa' :: rest')

/-- The result of stripping a record, as a total function on records. -/
def stripRecord (kvs : List (String × JSON)) : List (String × JSON) :=
  delKey "embedding" kvs

/-- Whether a JSON value is an object (a record/mapping). -/
def isObjB (qa : JSON) : Bool :=
  match qa with
  | .obj _ => true
  | _ => false

/-- Whether a JSON value is an atom on which Python `in` raises `TypeError`
(`null`, booleans and numbers are not iterable and not containers). -/
def isAtomB (qa : JSON) : Bool :=
  match qa with
  | .null => true
  | .bool _ => true
  | .num _ => true
  | _ => false

/-- Total stripping of a JSON value when it is an object; other values are
returned unchanged.  This is the value `stripElem` produces whenever it
succeeds on an object. -/
def stripValue (qa : JSON) : JSON :=
  match qa with
  | .obj kvs => .obj (stripRecord kvs)
  | v => v

/-- The decimal digit `d` (for `d < 10`) as a character. -/
def digitChar (d : Nat) : Char := Char.ofNat (48 + d)

/-- Decimal digits of `n`, most significant first, computed with explicit
fuel so that the recursion is structural. -/
def natDigitsAux : Nat → Nat → List Char
  | 0, _ => []
  | fuel + 1, n =>
    if n < 10 then [digitChar n]
    else natDigitsAux fuel (n / 10) ++ [digitChar (n % 10)]

/-- Decimal digits of `n`, most significant first (`n + 1` fuel always
suffices since a number has at most `n + 1` digits). -/
def natDigits (n : Nat) : List Char := natDigitsAux (n + 1) n

/-- Serialization of an integer, as `json.dump` renders Python ints. -/
def renderInt (n : Int) : List Char :=
  if n < 0 then '-' :: natDigits n.natAbs else natDigits n.toNat

/-- Lowercase hexadecimal digit `d` (for `d < 16`) as a character. -/
def hexChar (d : Nat) : Char :=
  if d < 10 then digitChar d else Char.ofNat (87 + d)

/-- Escaping of one character inside a JSON string literal, as `json.dump`
with `ensure_ascii=False` does: only `"`, backslash and control characters
below 0x20 are escaped, everything else is emitted literally. -/
def escChar (c : Char) : List Char :=
  if c = '"' then ['\\', '"']
  else if c = '\\' then ['\\', '\\']
  else if c = '\n' then ['\\', 'n']
  else if c = '\t' then ['\\', 't']
  else if c = '\r' then ['\\', 'r']
  else if c = Char.ofNat 8 then ['\\', 'b']
  else if c = Char.ofNat 12 then ['\\', 'f']
  else if c.toNat < 32 then
    '\\' :: 'u' :: '0' :: '0' :: hexChar (c.toNat / 16) :: [hexChar (c.toNat % 16)]
  else [c]

/-- Escaping of a whole character sequence. -/
def escList : List Char → List Char
  | [] => []
  | c :: cs => escChar c ++ escList cs

/-- Serialization of a string: double quotes around the escaped content. -/
def renderStr (s : String) : List Char :=
  '"' :: escList s.toList ++ ['"']

/-- Indentation emitted by `json.dump` with `indent=2` at nesting level
`lvl`. -/
def wsPad (lvl : Nat) : List Char := List.replicate (2 * lvl) ' '

mutual

/-- Serialization of a JSON value at nesting level `lvl`, following the
layout of `json.dump(data, f, ensure_ascii=False, indent=2)` (line 14 of the
script): empty containers are `[]`/`{}`, non-empty containers put every item
on its own line indented two more spaces, items are separated by `,` plus a
newline, keys are separated from values by `: `. -/
def renderV (lvl : Nat) : JSON → List Char
  | .null => 'n' :: 'u' :: 'l' :: ['l']
  | .bool true => 't' :: 'r' :: 'u' :: ['e']
  | .bool false => 'f' :: 'a' :: 'l' :: 's' :: ['e']
  | .num n => renderInt n
  | .str s => renderStr s
  | .arr [] => ['[', ']']
  | .arr (x :: xs) =>
    '[' :: '\n' :: (renderItems (lvl + 1) (x :: xs) ++ '\n' :: wsPad lvl ++ [']'])
  | .obj [] => ['{', '}']
  | .obj (kv :: kvs) =>
    '{' :: '\n' :: (renderMembers (lvl + 1) (kv :: kvs) ++ '\n' :: wsPad lvl ++ ['}'])

/-- Serialization of the items of a non-empty array, one per line. -/
def renderItems (lvl : Nat) : List JSON → List Char
  | [] => []
  | [x] => wsPad lvl ++ renderV lvl x
  | x :: y :: xs =>
    wsPad lvl ++ renderV lvl x ++ ',' :: '\n' :: renderItems lvl (y :: xs)

/-- Serialization of the members of a non-empty object, one per line. -/
def renderMembers (lvl : Nat) : List (String × JSON) → List Char
  | [] => []
  | [(k, v)] => wsPad lvl ++ renderStr k ++ ':' :: ' ' :: renderV lvl v
  | (k, v) :: kv :: kvs =>
    wsPad lvl ++ renderStr k ++ ':' :: ' ' :: renderV lvl v ++
      ',' :: '\n' :: renderMembers lvl (kv :: kvs)

end

/-- The full text the Writer produces for a value: serialization at nesting
level 0. -/
def renderTop (v : JSON) : String := String.mk (renderV 0 v)

mutual

/-- Structural size of a JSON value, used to bound the fuel the parser
needs. -/
def szJ : JSON → Nat
  | .null => 1
  | .bool _ => 1
  | .num _ => 1
  | .str _ => 1
  | .arr xs => 1 + szL xs
  | .obj kvs => 1 + szM kvs

/-- Structural size of a list of JSON values. -/
def szL : List JSON → Nat
  | [] => 1
  | x :: xs => 1 + szJ x + szL xs

/-- Structural size of a list of object members. -/
def szM : List (String × JSON) → Nat
  | [] => 1
  | (_, v) :: kvs => 1 + szJ v + szM kvs

end

/-- JSON whitespace, as skipped by `json.load` between tokens. -/
def isWsChar (c : Char) : Bool :=
  c = ' ' || c = '\t' || c = '\n' || c = '\r'

/-- Dropping leading JSON whitespace. -/
def skipWs : List Char → List Char
  | [] => []
  | c :: cs => if isWsChar c then skipWs cs else c :: cs

/-- Value of a hexadecimal digit character, if it is one. -/
def hexVal (c : Char) : Option Nat :=
  if c.isDigit then some (c.toNat - 48)
  else if 'a' ≤ c && c ≤ 'f' then some (c.toNat - 87)
  else if 'A' ≤ c && c ≤ 'F' then some (c.toNat - 55)
  else none

/-- Parsing of the body of a JSON string literal (the opening quote already
consumed), handling the escape sequences of the JSON grammar and rejecting
raw control characters, as `json.load` does in its default strict mode.
Astral escapes via surrogate pairs are out of scope of this model (the Writer
with `ensure_ascii=False` never emits them). -/
def parseStrBody : List Char → Option (List Char × List Char)
  | [] => none
  | c :: rest =>
    if c = '"' then some ([], rest)
    else if c = '\\' then
      match rest with
      | [] => none
      | e :: r =>
        if e = '"' then (parseStrBody r).map (fun p => ('"' :: p.1, p.2))
        else if e = '\\' then (parseStrBody r).map (fun p => ('\\' :: p.1, p.2))
        else if e = '/' then (parseStrBody r).map (fun p => ('/' :: p.1, p.2))
        else if e = 'n' then (parseStrBody r).map (fun p => ('\n' :: p.1, p.2))
        else if e = 't' then (parseStrBody r).map (fun p => ('\t' :: p.1, p.2))
        else if e = 'r' then (parseStrBody r).map (fun p => ('\r' :: p.1, p.2))
        else if e = 'b' then (parseStrBody r).map (fun p => (Char.ofNat 8 :: p.1, p.2))
        else if e = 'f' then (parseStrBody r).map (fun p => (Char.ofNat 12 :: p.1, p.2))
        else if e = 'u' then
          match r with
          | h1 :: h2 :: h3 :: h4 :: r' =>
            match hexVal h1, hexVal h2, hexVal h3, hexVal h4 with
            | some a, some b, some c, some d =>
              (parseStrBody r').map
                (fun p => (Char.ofNat (((a * 16 + b) * 16 + c) * 16 + d) :: p.1, p.2))
            | _, _, _, _ => none
          | _ => none
        else none
    else if c.toNat < 32 then none
    else (parseStrBody rest).map (fun p => (c :: p.1, p.2))

/-- Numeric value of a sequence of decimal digit characters. -/
def digitsToNat (ds : List Char) : Nat :=
  ds.foldl (fun acc c => 10 * acc + (c.toNat - 48)) 0

/-- Parsing of a maximal run of decimal digits. -/
def parseNat (cs : List Char) : Option (Nat × List Char) :=
  if cs.takeWhile (fun c => c.isDigit) = [] then none
  else
    some (digitsToNat (cs.takeWhile (fun c => c.isDigit)),
      cs.dropWhile (fun c => c.isDigit))

/-- Whether a remainder may legally follow a numeric token: it must not begin
with a digit (the parser reads digit runs greedily).  Every remainder the
serializer produces after a value satisfies this. -/
def delimOk (cs : List Char) : Bool :=
  match cs with
  | [] => true
  | c :: _ => !c.isDigit

mutual

/-- Recursive-descent parsing of one JSON value, modelling `json.load`
(line 5 of the script) on the JSON fragment this program produces and
consumes; numbers are restricted to the integer numerals of the data model.
The `fuel` argument only makes the recursion structural; `parseTop` supplies
enough of it for the whole input. -/
def parseVal : Nat → List Char → Option (JSON × List Char)
  | 0, _ => none
  | fuel + 1, cs =>
    match skipWs cs with
    | [] => none
    | c :: cs' =>
      if c = 'n' then
        match cs' with
        | 'u' :: 'l' :: 'l' :: r => some (.null, r)
        | _ => none
      else if c = 't' then
        match cs' with
        | 'r' :: 'u' :: 'e' :: r => some (.bool true, r)
        | _ => none
      else if c = 'f' then
        match cs' with
        | 'a' :: 'l' :: 's' :: 'e' :: r => some (.bool false, r)
        | _ => none
      else if c = '"' then
        (parseStrBody cs').map (fun p => (.str (String.mk p.1), p.2))
      else if c = '[' then
        match skipWs cs' with
        | ']' :: r => some (.arr [], r)
        | _ => (parseItems fuel cs').map (fun p => (.arr p.1, p.2))
      else if c = '{' then
        match skipWs cs' with
        | '}' :: r => some (.obj [], r)
        | _ => (parseMembers fuel cs').map (fun p => (.obj p.1, p.2))
      else if c = '-' then
        (parseNat cs').map (fun p => (.num (-(p.1 : Int)), p.2))
      else if c.isDigit then
        (parseNat (c :: cs')).map (fun p => (.num (p.1 : Int), p.2))
      else none

/-- Parsing of the items of a non-empty array (the opening bracket already
consumed): a value, then either `,` and more items or the closing bracket. -/
def parseItems : Nat → List Char → Option (List JSON × List Char)
  | 0, _ => none
  | fuel + 1, cs =>
    match parseVal fuel cs with
    | none => none
    | some (v, r) =>
      match skipWs r with
      | ',' :: r' => (parseItems fuel r').map (fun p => (v :: p.1, p.2))
      | ']' :: r' => some ([v], r')
      | _ => none

/-- Parsing of the members of a non-empty object (the opening brace already
consumed): a quoted key, `:`, a value, then either `,` and more members or
the closing brace. -/
def parseMembers : Nat → List Char → Option (List (String × JSON) × List Char)
  | 0, _ => none
  | fuel + 1, cs =>
    match skipWs cs with
    | '"' :: cs' =>
      match parseStrBody cs' with
      | none => none
      | some (k, r) =>
        match skipWs r with
        | ':' :: r' =>
          match parseVal fuel r' with
          | none => none
          | some (v, r2) =>
            match skipWs r2 with
            | ',' :: r3 =>
              (parseMembers fuel r3).map (fun p => ((String.mk k, v) :: p.1, p.2))
            | '}' :: r3 => some ([(String.mk k, v)], r3)
            | _ => none
        | _ => none
    | _ => none

end

/-- Parsing of a whole document, modelling `json.load`: one JSON value
possibly surrounded by whitespace, and nothing else (`json.load` raises on
trailing data). -/
def parseTop (s : String) : Option JSON :=
  match parseVal (s.toList.length + 1) s.toList with
  | some (v, r) => if skipWs r = [] then some v else none
  | none => none

/-- The loop `for qa in data` applied to an arbitrary parsed value, with
Python iteration semantics: a list is iterated element-wise (the only case
the script intends); iterating a dict yields its keys, which are strings, so
the first key on which the substring test `'embedding' in qa` succeeds makes
`del qa['embedding']` raise `TypeError`, and otherwise nothing happens;
iterating a string yields one-character strings, which never contain the
nine-character substring `"embedding"`, so nothing happens; `null`, booleans
and numbers are not iterable and raise `TypeError`. -/
def stripTop (data : JSON) : Except PyErr JSON :=
  match data with
  | .arr xs => (stripDoc xs).map .arr
  | .obj kvs =>
    if kvs.any (fun kv => strContainsSub "embedding" kv.1) then .error .typeError
    else .ok (.obj kvs)
  | .str s => .ok (.str s)
  | _ => .error .typeError

/-- The Loader (lines 4-5): opening the path for reading and `json.load`.
The file system is `Option String` (`none` when the path is missing or
unreadable); the stage returns the file system unchanged together with the
parsed document or the error. -/
def loadStage (file : Option String) : Option String × Except PyErr JSON :=
  match file with
  | none => (none, .error .fileAccessError)
  | some content =>
    match parseTop content with
    | none => (some content, .error .parseError)
    | some v => (some content, .ok v)

/-- The whole script: load, strip, then (only when both succeeded) open the
path for writing, truncating it, and write the serialized result.  The first
component is the file content after the run; the second is the outcome. -/
def runScript (file : Option String) : Option String × Except PyErr Unit :=
  match file with
  | none => (none, .error .fileAccessError)
  | some content =>
    match parseTop content with
    | none => (some content, .error .parseError)
    | some data =>
      match stripTop data with
      | .error e => (some content, .error e)
      | .ok out => (some (renderTop out), .ok ())

/-! ## Lemmas about the stripping stage -/

theorem delKey_of_not_hasKey (k : String) (kvs : List (String × JSON))
    (h : hasKey k kvs = false) : delKey k kvs = kvs := by
  unfold delKey
  apply List.filter_eq_self.mpr
  intro kv hm
  unfold hasKey at h
  rw [List.any_eq_false] at h
  have hkv := h kv hm
  rw [Bool.not_eq_true] at hkv
  simp [bne, hkv]

theorem hasKey_delKey (k : String) (kvs : List (String × JSON)) :
    hasKey k (delKey k kvs) = false := by
  unfold hasKey delKey
  rw [List.any_eq_false]
  intro kv hm
  rw [List.mem_filter] at hm
  have h2 := hm.2
  simp only [bne, Bool.not_eq_eq_eq_not, Bool.not_true] at h2
  simp [h2]

theorem stripElem_obj (kvs : List (String × JSON)) :
    stripElem (.obj kvs) = .ok (.obj (stripRecord kvs)) := by
  unfold stripElem pyContains pyDelEmbedding stripRecord
  cases h : hasKey "embedding" kvs with
  | true => simp [h]
  | false => rw [delKey_of_not_hasKey "embedding" kvs h]; simp [h]

theorem stripRecord_idem (kvs : List (String × JSON)) :
    stripRecord (stripRecord kvs) = stripRecord kvs :=
  delKey_of_not_hasKey "embedding" (delKey "embedding" kvs) (hasKey_delKey _ kvs)

theorem stripElem_str_eq (s : String) :
    stripElem (.str s) =
      if strContainsSub "embedding" s then .error .typeError else .ok (.str s) := rfl

theorem stripElem_arr_eq (xs : List JSON) :
    stripElem (.arr xs) =
      if xs.any strIsEmbedding then .error .typeError else .ok (.arr xs) := rfl

theorem stripElem_error_ty (qa : JSON) (e : PyErr) (h : stripElem qa = .error e) :
    e = .typeError := by
  cases qa with
  | null => exact (Except.error.inj h).symm
  | bool b => exact (Except.error.inj h).symm
  | num n => exact (Except.error.inj h).symm
  | str s =>
    rw [stripElem_str_eq] at h
    cases hc : strContainsSub "embedding" s <;> rw [hc] at h <;> simp at h
    exact h.symm
  | arr xs =>
    rw [stripElem_arr_eq] at h
    cases hc : xs.any strIsEmbedding <;> rw [hc] at h <;> simp at h
    exact h.symm
  | obj kvs => rw [stripElem_obj] at h; simp at h

theorem stripElem_atom (qa : JSON) (h : isAtomB qa = true) :
    stripElem qa = .error .typeError := by
  cases qa with
  | null => rfl
  | bool b => rfl
  | num n => rfl
  | str s => simp [isAtomB] at h
  | arr xs => simp [isAtomB] at h
  | obj kvs => simp [isAtomB] at h

theorem stripElem_post_fixed (qa out : JSON) (h : stripElem qa = .ok out) :
    stripElem out = .ok out := by
  cases qa with
  | null => exact absurd h (by simp [stripElem, pyContains])
  | bool b => exact absurd h (by simp [stripElem, pyContains])
  | num n => exact absurd h (by simp [stripElem, pyContains])
  | str s =>
    rw [stripElem_str_eq] at h
    cases hc : strContainsSub "embedding" s <;> rw [hc] at h <;> simp at h
    rw [← h, stripElem_str_eq, hc]
    simp
  | arr xs =>
    rw [stripElem_arr_eq] at h
    cases hc : xs.any strIsEmbedding <;> rw [hc] at h <;> simp at h
    rw [← h, stripElem_arr_eq, hc]
    simp
  | obj kvs =>
    rw [stripElem_obj] at h
    simp at h
    rw [← h, stripElem_obj, stripRecord_idem]

theorem stripDoc_obj_all (data : List JSON) (h : data.all isObjB = true) :
    stripDoc data = .ok (data.map stripValue) := by
  induction data with
  | nil => rfl
  | cons qa rest ih =>
    rw [List.all_cons, Bool.and_eq_true] at h
    cases qa with
    | null => simp [isObjB] at h
    | bool b => simp [isObjB] at h
    | num n => simp [isObjB] at h
    | str s => simp [isObjB] at h
    | arr xs => simp [isObjB] at h
    | obj kvs => simp [stripDoc, stripElem_obj, ih h.2, stripValue]

/-- C1: for every input document whose elements are records, the stripping
stage succeeds and produces the element-wise stripped list, which has the
same length and keeps the records in their original order (the value at each
position is the stripped original value at that position); in particular the
empty document maps to the empty document (instantiate at `[]`). -/
theorem strip_doc_length_order (data : List JSON) (h : data.all isObjB = true) :
    stripDoc data = .ok (data.map stripValue) ∧
    (data.map stripValue).length = data.length :=
  ⟨stripDoc_obj_all data h, by simp⟩

theorem strip_doc_length_order_witness :
    stripDoc [JSON.obj [("q", .str "A"), ("embedding", .arr [.num 1])], JSON.obj [("q", .str "B")]] =
      .ok ([JSON.obj [("q", .str "A"), ("embedding", .arr [.num 1])], JSON.obj [("q", .str "B")]].map stripValue) ∧
    ([JSON.obj [("q", .str "A"), ("embedding", .arr [.num 1])], JSON.obj [("q", .str "B")]].map stripValue).length =
      [JSON.obj [("q", .str "A"), ("embedding", .arr [.num 1])], JSON.obj [("q", .str "B")]].length :=
  strip_doc_length_order _ rfl

/-- C2: stripping a record removes exactly the bindings whose key is
`"embedding"`: the result is the record's filter, it is a sublist of the
record (so the relative order of the remaining bindings is unchanged), and
a binding survives if and only if it was present and its key differs from
`"embedding"` (so every other key keeps its value and nothing else is
modified). -/
theorem strip_record_frame (kvs : List (String × JSON)) :
    stripElem (.obj kvs) = .ok (.obj (stripRecord kvs)) ∧
    List.Sublist (stripRecord kvs) kvs ∧
    (∀ kv : String × JSON, kv ∈ stripRecord kvs ↔ kv ∈ kvs ∧ kv.1 ≠ "embedding") := by
  refine ⟨stripElem_obj kvs, List.filter_sublist kvs, ?_⟩
  intro kv
  simp [stripRecord, delKey, List.mem_filter]

/-- C3: stripping is idempotent at document level: whenever a run of the
stripping stage succeeds with output `out`, running the stage on `out`
succeeds and returns `out` unchanged. -/
theorem strip_doc_idempotent (data out : List JSON) (h : stripDoc data = .ok out) :
    stripDoc out = .ok out := by
  induction data generalizing out with
  | nil =>
    injection h with h2
    rw [← h2]
    rfl
  | cons qa rest ih =>
    simp only [stripDoc] at h
    cases h1 : stripElem qa with
    | error e => rw [h1] at h; simp at h
    | ok qa' =>
      rw [h1] at h
      cases h2 : stripDoc rest with
      | error e => rw [h2] at h; simp at h
      | ok rest' =>
        rw [h2] at h
        simp at h
        rw [← h]
        simp [stripDoc, stripElem_post_fixed qa qa' h1, ih rest' h2]

theorem strip_doc_idempotent_witness :
    stripDoc [JSON.obj [("q", .str "A")]] = .ok [JSON.obj [("q", .str "A")]] :=
  strip_doc_idempotent [JSON.obj [("q", .str "A"), ("embedding", .null)]]
    [JSON.obj [("q", .str "A")]] rfl

/-- C4: a record that does not contain the key `"embedding"` passes through
the stripping stage structurally unchanged: the very same list of bindings
(all keys and values, in the same order) is returned. -/
theorem strip_absent_unchanged (kvs : List (String × JSON))
    (h : hasKey "embedding" kvs = false) :
    stripElem (.obj kvs) = .ok (.obj kvs) := by
  rw [stripElem_obj]
  rw [show stripRecord kvs = delKey "embedding" kvs from rfl]
  rw [delKey_of_not_hasKey "embedding" kvs h]

theorem strip_absent_unchanged_witness :
    stripElem (.obj [("question", .str "What is a deductible?"), ("answer", .str "The amount you pay.")]) =
      .ok (.obj [("question", .str "What is a deductible?"), ("answer", .str "The amount you pay.")]) :=
  strip_absent_unchanged _ rfl

/-- C8 counterexample: a document containing an element that is not a mapping
(the string "hello") on which the stripping stage does NOT fail: the
membership test evaluates without error and the element passes through, so
the claim that stripping fails on every non-mapping element is false. -/
theorem strip_nonmapping_no_error_cex :
    stripDoc [JSON.str "hello"] = .ok [JSON.str "hello"] ∧
    isObjB (JSON.str "hello") = false :=
  ⟨rfl, rfl⟩

/-- C8 (amended): for every document containing an element that is neither a
mapping nor a string nor a sequence (that is, `null`, a boolean or a number),
the stripping stage fails with a `TypeError`-equivalent when it performs the
membership test on that element; string and list elements only fail when the
membership test succeeds on them. -/
theorem strip_doc_atom_error (data : List JSON) (qa : JSON) (hm : qa ∈ data)
    (ha : isAtomB qa = true) : stripDoc data = .error .typeError := by
  induction data with
  | nil => simp at hm
  | cons x rest ih =>
    rcases List.mem_cons.mp hm with h | h
    · rw [← h]
      simp [stripDoc, stripElem_atom qa ha]
    · cases h1 : stripElem x with
      | error e =>
        rw [stripElem_error_ty x e h1] at h1
        simp [stripDoc, h1]
      | ok x' => simp [stripDoc, h1, ih h]

theorem strip_doc_atom_error_witness :
    stripDoc [JSON.obj [("q", .str "A")], JSON.num 3] = .error .typeError :=
  strip_doc_atom_error [JSON.obj [("q", .str "A")], JSON.num 3] (JSON.num 3)
    (by simp) rfl

/-- C9: stripping never recurses into values: any binding of a record whose
key differs from `"embedding"` survives in the stripped record with its value
untouched, even when that value itself contains a nested `"embedding"` key
(the witness instantiates the value with such a nested mapping). -/
theorem strip_preserves_nested (kvs : List (String × JSON)) (k : String)
    (v : JSON) (hm : (k, v) ∈ kvs) (hk : k ≠ "embedding") :
    stripElem (.obj kvs) = .ok (.obj (stripRecord kvs)) ∧
    (k, v) ∈ stripRecord kvs := by
  refine ⟨stripElem_obj kvs, ?_⟩
  simp [stripRecord, delKey, List.mem_filter]
  exact ⟨hm, hk⟩

theorem strip_preserves_nested_witness :
    stripElem (.obj [("data", JSON.obj [("embedding", .num 1)])]) =
      .ok (.obj (stripRecord [("data", JSON.obj [("embedding", .num 1)])])) ∧
    ("data", JSON.obj [("embedding", .num 1)]) ∈
      stripRecord [("data", JSON.obj [("embedding", .num 1)])] :=
  strip_preserves_nested _ "data" (JSON.obj [("embedding", .num 1)])
    (by simp) (by decide)

/-- C10: non-mapping elements on which the membership test is falsy are
benign: for a string not containing the substring "embedding" and for a list
not containing the string "embedding" as an element, `'embedding' in qa`
evaluates without error to `False` and the stripping stage leaves the element
unchanged. -/
theorem strip_benign_nonmapping (s : String) (xs : List JSON) :
    (strContainsSub "embedding" s = false →
      pyContains (.str s) = .ok false ∧ stripElem (.str s) = .ok (.str s)) ∧
    (xs.any strIsEmbedding = false →
      pyContains (.arr xs) = .ok false ∧ stripElem (.arr xs) = .ok (.arr xs)) := by
  constructor
  · intro h
    exact ⟨by simp [pyContains, h], by rw [stripElem_str_eq, h]; simp⟩
  · intro h
    exact ⟨by simp [pyContains, h], by rw [stripElem_arr_eq, h]; simp⟩

theorem strip_benign_nonmapping_witness :
    (pyContains (.str "hello") = .ok false ∧
      stripElem (.str "hello") = .ok (.str "hello")) ∧
    (pyContains (.arr [JSON.num 1, JSON.str "x"]) = .ok false ∧
      stripElem (.arr [JSON.num 1, JSON.str "x"]) = .ok (.arr [JSON.num 1, JSON.str "x"])) :=
  ⟨(strip_benign_nonmapping "hello" [JSON.num 1, JSON.str "x"]).1 rfl,
   (strip_benign_nonmapping "hello" [JSON.num 1, JSON.str "x"]).2 rfl⟩

/-! ## Lemmas about the pipeline (loading, error atomicity) -/

/-- C7: classification of the Loader: a missing/unreadable path fails with
`FileAccessError`, readable content that is not well-formed JSON fails with
`ParseError`, and well-formed content yields the parsed document, in every
case leaving the file exactly as it was. -/
theorem loader_spec :
    loadStage none = (none, .error .fileAccessError) ∧
    (∀ s : String, parseTop s = none →
      loadStage (some s) = (some s, .error .parseError)) ∧
    (∀ (s : String) (v : JSON), parseTop s = some v →
      loadStage (some s) = (some s, .ok v)) := by
  refine ⟨rfl, ?_, ?_⟩
  · intro s h
    simp [loadStage, h]
  · intro s v h
    simp [loadStage, h]

theorem loader_spec_witness :
    loadStage (some "oops") = (some "oops", .error .parseError) ∧
    loadStage (some "[]") = (some "[]", .ok (.arr [])) :=
  ⟨loader_spec.2.1 "oops" rfl, loader_spec.2.2 "[]" (.arr []) rfl⟩

/-- C6: error atomicity before the write stage: whenever the run fails (the
loader cannot read the file, the content does not parse, or the stripping
stage raises), the file content after the run equals the file content before
it; the script only truncates and rewrites the file in the success branch,
after parsing and stripping have fully completed. -/
theorem run_error_preserves_file (fs : Option String) (e : PyErr)
    (h : (runScript fs).2 = .error e) : (runScript fs).1 = fs := by
  cases fs with
  | none => rfl
  | some content =>
    cases hp : parseTop content with
    | none => simp [runScript, hp]
    | some data =>
      cases hs : stripTop data with
      | error e2 => simp [runScript, hp, hs]
      | ok out =>
        rw [show (runScript (some content)).2 = .ok () by simp [runScript, hp, hs]] at h
        simp at h

theorem run_error_preserves_file_witness :
    (runScript (some "[truncated")).2 = .error .parseError ∧
    (runScript (some "[truncated")).1 = some "[truncated" :=
  ⟨rfl, run_error_preserves_file (some "[truncated") .parseError rfl⟩

/-! ## Round-trip of the Writer and the parser: character-level lemmas -/

theorem skipWs_cons_of_not_ws (c : Char) (cs : List Char) (h : isWsChar c = false) :
    skipWs (c :: cs) = c :: cs := by simp [skipWs, h]

theorem skipWs_cons_of_ws (c : Char) (cs : List Char) (h : isWsChar c = true) :
    skipWs (c :: cs) = skipWs cs := by simp [skipWs, h]

theorem skipWs_wsOnly_append (W cs : List Char) (hW : ∀ c ∈ W, isWsChar c = true) :
    skipWs (W ++ cs) = skipWs cs := by
  induction W with
  | nil => rfl
  | cons c t ih =>
    rw [List.cons_append, skipWs_cons_of_ws c _ (hW c (by simp))]
    exact ih (fun c2 h2 => hW c2 (by simp [h2]))

theorem wsPad_wsOnly (lvl : Nat) : ∀ c ∈ wsPad lvl, isWsChar c = true := by
  intro c h
  rw [List.eq_of_mem_replicate h]
  rfl

theorem skipWs_wsPad_append (lvl : Nat) (cs : List Char) :
    skipWs (wsPad lvl ++ cs) = skipWs cs :=
  skipWs_wsOnly_append _ _ (wsPad_wsOnly lvl)

theorem ne_of_isDigit (c d : Char) (h : c.isDigit = true) (hd : d.isDigit = false) :
    c ≠ d := by
  intro e
  rw [e, hd] at h
  cases h

theorem isWsChar_false_of_isDigit (c : Char) (h : c.isDigit = true) :
    isWsChar c = false := by
  have h1 : c ≠ ' ' := ne_of_isDigit c ' ' h (by decide)
  have h2 : c ≠ '\t' := ne_of_isDigit c '\t' h (by decide)
  have h3 : c ≠ '\n' := ne_of_isDigit c '\n' h (by decide)
  have h4 : c ≠ '\r' := ne_of_isDigit c '\r' h (by decide)
  simp [isWsChar, h1, h2, h3, h4]

theorem digitChar_isDigit : ∀ d : Nat, d < 10 → (digitChar d).isDigit = true := by decide

theorem digitChar_val : ∀ d : Nat, d < 10 → (digitChar d).toNat - 48 = d := by decide

theorem digitsToNat_append_digit (ds : List Char) (c : Char) :
    digitsToNat (ds ++ [c]) = 10 * digitsToNat ds + (c.toNat - 48) := by
  simp [digitsToNat, List.foldl_append]

theorem natDigitsAux_spec : ∀ fuel n : Nat, n < fuel →
    natDigitsAux fuel n ≠ [] ∧ (∀ c ∈ natDigitsAux fuel n, c.isDigit = true) ∧
    digitsToNat (natDigitsAux fuel n) = n := by
  intro fuel
  induction fuel with
  | zero => intro n h; exact absurd h (by omega)
  | succ f ih =>
    intro n h
    by_cases h10 : n < 10
    · simp only [natDigitsAux, if_pos h10]
      refine ⟨by simp, ?_, ?_⟩
      · intro c hc
        simp at hc
        rw [hc]
        exact digitChar_isDigit n h10
      · show digitsToNat [digitChar n] = n
        have : digitsToNat [digitChar n] = (digitChar n).toNat - 48 := by
          simp [digitsToNat]
        rw [this, digitChar_val n h10]
    · have hn0 : 0 < n := by omega
      have hf : n / 10 < f := by
        have := Nat.div_lt_self hn0 (show 1 < 10 by omega)
        omega
      obtain ⟨hne, hdig, hval⟩ := ih (n / 10) hf
      simp only [natDigitsAux, if_neg h10]
      refine ⟨by simp, ?_, ?_⟩
      · intro c hc
        rcases List.mem_append.mp hc with h1 | h1
        · exact hdig c h1
        · simp at h1
          rw [h1]
          exact digitChar_isDigit (n % 10) (Nat.mod_lt n (by omega))
      · rw [digitsToNat_append_digit, hval, digitChar_val (n % 10) (Nat.mod_lt n (by omega))]
        omega

theorem natDigits_ne_nil (n : Nat) : natDigits n ≠ [] :=
  (natDigitsAux_spec (n + 1) n (by omega)).1

theorem natDigits_all_digit (n : Nat) : ∀ c ∈ natDigits n, c.isDigit = true :=
  (natDigitsAux_spec (n + 1) n (by omega)).2.1

theorem digitsToNat_natDigits (n : Nat) : digitsToNat (natDigits n) = n :=
  (natDigitsAux_spec (n + 1) n (by omega)).2.2

theorem takeWhile_all_append (p : Char → Bool) (ds rest : List Char)
    (h : ∀ c ∈ ds, p c = true) :
    (ds ++ rest).takeWhile p = ds ++ rest.takeWhile p := by
  induction ds with
  | nil => rfl
  | cons c t ih =>
    rw [List.cons_append, List.takeWhile_cons, h c (List.mem_cons_self c t)]
    rw [ih (fun c2 h2 => h c2 (by simp [h2]))]
    simp

theorem dropWhile_all_append (p : Char → Bool) (ds rest : List Char)
    (h : ∀ c ∈ ds, p c = true) :
    (ds ++ rest).dropWhile p = rest.dropWhile p := by
  induction ds with
  | nil => rfl
  | cons c t ih =>
    rw [List.cons_append, List.dropWhile_cons, h c (List.mem_cons_self c t)]
    simp only [if_pos]
    exact ih (fun c2 h2 => h c2 (by simp [h2]))

theorem takeWhile_digit_delim (rest : List Char) (h : delimOk rest = true) :
    rest.takeWhile (fun c => c.isDigit) = [] := by
  cases rest with
  | nil => rfl
  | cons c t =>
    simp [delimOk] at h
    simp [List.takeWhile_cons, h]

theorem dropWhile_digit_delim (rest : List Char) (h : delimOk rest = true) :
    rest.dropWhile (fun c => c.isDigit) = rest := by
  cases rest with
  | nil => rfl
  | cons c t =>
    simp [delimOk] at h
    simp [List.dropWhile_cons, h]

theorem parseNat_natDigits (n : Nat) (rest : List Char) (h : delimOk rest = true) :
    parseNat (natDigits n ++ rest) = some (n, rest) := by
  have hdig : ∀ c ∈ natDigits n, (fun c : Char => c.isDigit) c = true :=
    natDigits_all_digit n
  have htake : (natDigits n ++ rest).takeWhile (fun c => c.isDigit) = natDigits n := by
    rw [takeWhile_all_append _ _ _ hdig, takeWhile_digit_delim rest h, List.append_nil]
  have hdrop : (natDigits n ++ rest).dropWhile (fun c => c.isDigit) = rest := by
    rw [dropWhile_all_append _ _ _ hdig, dropWhile_digit_delim rest h]
  unfold parseNat
  rw [htake, hdrop, if_neg (natDigits_ne_nil n), digitsToNat_natDigits]

theorem char_ofNat_toNat (c : Char) : Char.ofNat c.toNat = c := by
  have h : Nat.isValidChar c.toNat := c.valid
  apply Char.ext
  simp [Char.ofNat, h, Char.ofNatAux]
  apply UInt32.toNat.inj
  simp [UInt32.toNat, Char.toNat]

theorem string_mk_toList (s : String) : String.mk s.toList = s := by
  cases s
  rfl

theorem string_mk_data (s : String) : String.mk s.data = s := by
  cases s
  rfl

theorem hexVal_hexChar : ∀ d : Nat, d < 16 → hexVal (hexChar d) = some d := by
  decide

theorem parseStrBody_escList (s rest : List Char) :
    parseStrBody (escList s ++ '"' :: rest) = some (s, rest) := by
  induction s with
  | nil =>
    show parseStrBody ('"' :: rest) = some ([], rest)
    rw [parseStrBody.eq_def]
    simp
  | cons c t ih =>
    rw [show escList (c :: t) = escChar c ++ escList t from rfl, List.append_assoc]
    by_cases h1 : c = '"'
    · subst h1
      rw [show escChar '"' = ['\\', '"'] from rfl, List.cons_append, List.cons_append,
        List.nil_append, parseStrBody.eq_def]
      simp [ih]
    by_cases h2 : c = '\\'
    · subst h2
      rw [show escChar '\\' = ['\\', '\\'] from rfl, List.cons_append, List.cons_append,
        List.nil_append, parseStrBody.eq_def]
      simp [ih]
    by_cases h3 : c = '\n'
    · subst h3
      rw [show escChar '\n' = ['\\', 'n'] from rfl, List.cons_append, List.cons_append,
        List.nil_append, parseStrBody.eq_def]
      simp [ih]
    by_cases h4 : c = '\t'
    · subst h4
      rw [show escChar '\t' = ['\\', 't'] from rfl, List.cons_append, List.cons_append,
        List.nil_append, parseStrBody.eq_def]
      simp [ih]
    by_cases h5 : c = '\r'
    · subst h5
      rw [show escChar '\r' = ['\\', 'r'] from rfl, List.cons_append, List.cons_append,
        List.nil_append, parseStrBody.eq_def]
      simp [ih]
    by_cases h6 : c = Char.ofNat 8
    · subst h6
      rw [show escChar (Char.ofNat 8) = ['\\', 'b'] from rfl, List.cons_append,
        List.cons_append, List.nil_append, parseStrBody.eq_def]
      simp [ih]
    by_cases h7 : c = Char.ofNat 12
    · subst h7
      rw [show escChar (Char.ofNat 12) = ['\\', 'f'] from rfl, List.cons_append,
        List.cons_append, List.nil_append, parseStrBody.eq_def]
      simp [ih]
    by_cases h8 : c.toNat < 32
    · rw [show escChar c =
          ['\\', 'u', '0', '0', hexChar (c.toNat / 16), hexChar (c.toNat % 16)]
          from by simp [escChar, h1, h2, h3, h4, h5, h6, h7, h8]]
      have e1 : hexVal (hexChar (c.toNat / 16)) = some (c.toNat / 16) :=
        hexVal_hexChar _ (by omega)
      have e2 : hexVal (hexChar (c.toNat % 16)) = some (c.toNat % 16) :=
        hexVal_hexChar _ (by omega)
      have e0 : hexVal '0' = some 0 := rfl
      simp only [List.cons_append, List.nil_append]
      rw [parseStrBody.eq_def]
      simp [e0, e1, e2, ih]
      rw [show c.toNat / 16 * 16 + c.toNat % 16 = c.toNat by omega, char_ofNat_toNat]
    · rw [show escChar c = [c] from by simp [escChar, h1, h2, h3, h4, h5, h6, h7, h8]]
      simp only [List.singleton_append]
      rw [parseStrBody.eq_def]
      simp [h1, h2, h8, ih]

theorem renderInt_head (n : Int) :
    ∃ c T, renderInt n = c :: T ∧ (c = '-' ∨ c.isDigit = true) := by
  unfold renderInt
  by_cases h : n < 0
  · rw [if_pos h]
    exact ⟨'-', natDigits n.natAbs, rfl, Or.inl rfl⟩
  · rw [if_neg h]
    cases hd : natDigits n.toNat with
    | nil => exact absurd hd (natDigits_ne_nil _)
    | cons c T =>
      refine ⟨c, T, rfl, Or.inr ?_⟩
      exact natDigits_all_digit _ c (by rw [hd]; exact List.mem_cons_self c T)

theorem renderV_head (lvl : Nat) (v : JSON) :
    ∃ c T, renderV lvl v = c :: T ∧ isWsChar c = false ∧ c ≠ ']' ∧ c ≠ '}' := by
  cases v with
  | null => refine ⟨'n', _, rfl, ?_, ?_, ?_⟩ <;> decide
  | bool b =>
    cases b with
    | true => refine ⟨'t', _, rfl, ?_, ?_, ?_⟩ <;> decide
    | false => refine ⟨'f', _, rfl, ?_, ?_, ?_⟩ <;> decide
  | num n =>
    obtain ⟨c, T, hct, hc⟩ := renderInt_head n
    refine ⟨c, T, ?_, ?_, ?_, ?_⟩
    · rw [show renderV lvl (.num n) = renderInt n from rfl, hct]
    · rcases hc with rfl | hd
      · decide
      · exact isWsChar_false_of_isDigit c hd
    · rcases hc with rfl | hd
      · decide
      · exact ne_of_isDigit c ']' hd (by decide)
    · rcases hc with rfl | hd
      · decide
      · exact ne_of_isDigit c '}' hd (by decide)
  | str s => refine ⟨'"', _, rfl, ?_, ?_, ?_⟩ <;> decide
  | arr xs =>
    cases xs with
    | nil => refine ⟨'[', _, rfl, ?_, ?_, ?_⟩ <;> decide
    | cons x t => refine ⟨'[', _, rfl, ?_, ?_, ?_⟩ <;> decide
  | obj kvs =>
    cases kvs with
    | nil => refine ⟨'{', _, rfl, ?_, ?_, ?_⟩ <;> decide
    | cons kv t => refine ⟨'{', _, rfl, ?_, ?_, ?_⟩ <;> decide

theorem skipWs_render_append (lvl : Nat) (v : JSON) (T : List Char) :
    skipWs (renderV lvl v ++ T) = renderV lvl v ++ T := by
  obtain ⟨c, U, h, hws, _, _⟩ := renderV_head lvl v
  rw [h, List.cons_append, skipWs_cons_of_not_ws _ _ hws]

theorem renderItems_single (lvl : Nat) (x : JSON) :
    renderItems lvl [x] = wsPad lvl ++ renderV lvl x := rfl

theorem renderItems_cons2 (lvl : Nat) (x y : JSON) (ys : List JSON) :
    renderItems lvl (x :: y :: ys) =
      wsPad lvl ++ (renderV lvl x ++ (',' :: '\n' :: renderItems lvl (y :: ys))) := by
  show (wsPad lvl ++ renderV lvl x) ++ (',' :: '\n' :: renderItems lvl (y :: ys)) =
    wsPad lvl ++ (renderV lvl x ++ (',' :: '\n' :: renderItems lvl (y :: ys)))
  rw [List.append_assoc]

theorem renderMembers_single (lvl : Nat) (k : String) (v : JSON) :
    renderMembers lvl [(k, v)] =
      wsPad lvl ++ ('"' :: (escList k.data ++ '"' :: (':' :: ' ' :: renderV lvl v))) := by
  show (wsPad lvl ++ renderStr k) ++ (':' :: ' ' :: renderV lvl v) =
    wsPad lvl ++ ('"' :: (escList k.data ++ '"' :: (':' :: ' ' :: renderV lvl v)))
  rw [renderStr]
  simp [List.cons_append, List.append_assoc]

theorem renderMembers_cons2 (lvl : Nat) (k : String) (v : JSON) (p : String × JSON)
    (kvs : List (String × JSON)) :
    renderMembers lvl ((k, v) :: p :: kvs) =
      wsPad lvl ++ ('"' :: (escList k.data ++ '"' ::
        (':' :: ' ' :: (renderV lvl v ++ (',' :: '\n' :: renderMembers lvl (p :: kvs)))))) := by
  show ((wsPad lvl ++ renderStr k) ++ (':' :: ' ' :: renderV lvl v)) ++
      (',' :: '\n' :: renderMembers lvl (p :: kvs)) =
    wsPad lvl ++ ('"' :: (escList k.data ++ '"' ::
      (':' :: ' ' :: (renderV lvl v ++ (',' :: '\n' :: renderMembers lvl (p :: kvs))))))
  rw [renderStr]
  simp [List.cons_append, List.append_assoc]

theorem skipWs_renderItems_append (lvl : Nat) (x : JSON) (xs : List JSON) (T : List Char) :
    ∃ c U, skipWs (renderItems lvl (x :: xs) ++ T) = c :: U ∧
      isWsChar c = false ∧ c ≠ ']' ∧ c ≠ '}' := by
  obtain ⟨c, U0, h, hws, h2, h3⟩ := renderV_head lvl x
  cases xs with
  | nil =>
    refine ⟨c, U0 ++ T, ?_, hws, h2, h3⟩
    rw [renderItems_single, List.append_assoc, skipWs_wsPad_append, h, List.cons_append,
      skipWs_cons_of_not_ws _ _ hws]
  | cons y ys =>
    refine ⟨c, U0 ++ (',' :: '\n' :: (renderItems lvl (y :: ys) ++ T)), ?_, hws, h2, h3⟩
    rw [renderItems_cons2, List.append_assoc, skipWs_wsPad_append, List.append_assoc, h,
      List.cons_append, skipWs_cons_of_not_ws _ _ hws]
    simp [List.cons_append, List.append_assoc]

theorem skipWs_renderMembers_append (lvl : Nat) (k : String) (v : JSON)
    (kvs : List (String × JSON)) (T : List Char) :
    ∃ U, skipWs (renderMembers lvl ((k, v) :: kvs) ++ T) = '"' :: U := by
  cases kvs with
  | nil =>
    refine ⟨escList k.data ++ '"' :: (':' :: ' ' :: renderV lvl v) ++ T, ?_⟩
    rw [renderMembers_single, List.append_assoc, skipWs_wsPad_append, List.cons_append,
      skipWs_cons_of_not_ws _ _ (by decide)]
  | cons p kvs' =>
    refine ⟨escList k.data ++ '"' ::
      (':' :: ' ' :: (renderV lvl v ++ ',' :: '\n' :: renderMembers lvl (p :: kvs'))) ++ T, ?_⟩
    rw [renderMembers_cons2, List.append_assoc, skipWs_wsPad_append, List.cons_append,
      skipWs_cons_of_not_ws _ _ (by decide)]

theorem szJ_pos (v : JSON) : 1 ≤ szJ v := by
  cases v <;> simp only [szJ] <;> omega

theorem szL_pos (xs : List JSON) : 1 ≤ szL xs := by
  cases xs <;> simp only [szL] <;> omega

theorem szM_pos (kvs : List (String × JSON)) : 1 ≤ szM kvs := by
  cases kvs with
  | nil => simp only [szM]; omega
  | cons kv t =>
    obtain ⟨a, b⟩ := kv
    simp only [szM]
    omega

theorem parse_render_main (fuel : Nat) :
    (∀ (v : JSON) (lvl : Nat) (W rest : List Char),
      (∀ c ∈ W, isWsChar c = true) → szJ v < fuel → delimOk rest = true →
      parseVal fuel (W ++ (renderV lvl v ++ rest)) = some (v, rest)) ∧
    (∀ (x : JSON) (xs : List JSON) (lvl lvl0 : Nat) (W rest : List Char),
      (∀ c ∈ W, isWsChar c = true) → szL (x :: xs) < fuel → delimOk rest = true →
      parseItems fuel
        (W ++ (renderItems lvl (x :: xs) ++ ('\n' :: (wsPad lvl0 ++ (']' :: rest))))) =
        some (x :: xs, rest)) ∧
    (∀ (k : String) (v : JSON) (kvs : List (String × JSON)) (lvl lvl0 : Nat)
      (W rest : List Char),
      (∀ c ∈ W, isWsChar c = true) → szM ((k, v) :: kvs) < fuel → delimOk rest = true →
      parseMembers fuel
        (W ++ (renderMembers lvl ((k, v) :: kvs) ++ ('\n' :: (wsPad lvl0 ++ ('}' :: rest))))) =
        some ((k, v) :: kvs, rest)) := by
  induction fuel using Nat.strong_induction_on with
  | _ fuel IH =>
  cases fuel with
  | zero =>
    refine ⟨?_, ?_, ?_⟩
    · intro v lvl W rest hW hsz hrest
      exact absurd hsz (by have := szJ_pos v; omega)
    · intro x xs lvl lvl0 W rest hW hsz hrest
      exact absurd hsz (by have := szL_pos (x :: xs); omega)
    · intro k v kvs lvl lvl0 W rest hW hsz hrest
      exact absurd hsz (by have := szM_pos ((k, v) :: kvs); omega)
  | succ f =>
  obtain ⟨IHval, IHitems, IHmem⟩ := IH f (Nat.lt_succ_self f)
  refine ⟨?_, ?_, ?_⟩
  · -- values
    intro v lvl W rest hW hsz hrest
    cases v with
    | null =>
      have hsk : skipWs (W ++ (renderV lvl JSON.null ++ rest)) =
          'n' :: 'u' :: 'l' :: 'l' :: rest := by
        rw [skipWs_wsOnly_append W _ hW]
        exact skipWs_cons_of_not_ws 'n' _ (by decide)
      rw [parseVal.eq_def]
      simp [hsk]
    | bool b =>
      cases b with
      | true =>
        have hsk : skipWs (W ++ (renderV lvl (JSON.bool true) ++ rest)) =
            't' :: 'r' :: 'u' :: 'e' :: rest := by
          rw [skipWs_wsOnly_append W _ hW]
          exact skipWs_cons_of_not_ws 't' _ (by decide)
        rw [parseVal.eq_def]
        simp [hsk]
      | false =>
        have hsk : skipWs (W ++ (renderV lvl (JSON.bool false) ++ rest)) =
            'f' :: 'a' :: 'l' :: 's' :: 'e' :: rest := by
          rw [skipWs_wsOnly_append W _ hW]
          exact skipWs_cons_of_not_ws 'f' _ (by decide)
        rw [parseVal.eq_def]
        simp [hsk]
    | num n =>
      by_cases hneg : n < 0
      · have hsk : skipWs (W ++ (renderV lvl (JSON.num n) ++ rest)) =
            '-' :: (natDigits n.natAbs ++ rest) := by
          rw [skipWs_wsOnly_append W _ hW,
            show renderV lvl (JSON.num n) = '-' :: natDigits n.natAbs from by
              rw [show renderV lvl (JSON.num n) = renderInt n from rfl, renderInt, if_pos hneg],
            List.cons_append]
          exact skipWs_cons_of_not_ws '-' _ (by decide)
        rw [parseVal.eq_def]
        simp [hsk, parseNat_natDigits n.natAbs rest hrest]
        rw [abs_of_neg hneg, neg_neg]
      · cases hd : natDigits n.toNat with
        | nil => exact absurd hd (natDigits_ne_nil _)
        | cons c T =>
          have hcd : c.isDigit = true :=
            natDigits_all_digit _ c (by rw [hd]; exact List.mem_cons_self c T)
          have hws0 := isWsChar_false_of_isDigit c hcd
          have hn1 : c ≠ 'n' := ne_of_isDigit c 'n' hcd (by decide)
          have hn2 : c ≠ 't' := ne_of_isDigit c 't' hcd (by decide)
          have hn3 : c ≠ 'f' := ne_of_isDigit c 'f' hcd (by decide)
          have hn4 : c ≠ '"' := ne_of_isDigit c '"' hcd (by decide)
          have hn5 : c ≠ '[' := ne_of_isDigit c '[' hcd (by decide)
          have hn6 : c ≠ '{' := ne_of_isDigit c '{' hcd (by decide)
          have hn7 : c ≠ '-' := ne_of_isDigit c '-' hcd (by decide)
          have hsk : skipWs (W ++ (renderV lvl (JSON.num n) ++ rest)) = c :: (T ++ rest) := by
            rw [skipWs_wsOnly_append W _ hW,
              show renderV lvl (JSON.num n) = natDigits n.toNat from by
                rw [show renderV lvl (JSON.num n) = renderInt n from rfl, renderInt,
                  if_neg hneg],
              hd, List.cons_append]
            exact skipWs_cons_of_not_ws c _ hws0
          have hpn : parseNat (c :: (T ++ rest)) = some (n.toNat, rest) := by
            rw [show c :: (T ++ rest) = natDigits n.toNat ++ rest from by
              rw [hd]; rfl]
            exact parseNat_natDigits n.toNat rest hrest
          rw [parseVal.eq_def]
          simp [hsk, hn1, hn2, hn3, hn4, hn5, hn6, hn7, hcd, hpn]
          omega
    | str s =>
      have hsk : skipWs (W ++ (renderV lvl (JSON.str s) ++ rest)) =
          '"' :: (escList s.toList ++ '"' :: rest) := by
        rw [skipWs_wsOnly_append W _ hW,
          show renderV lvl (JSON.str s) ++ rest = '"' :: (escList s.toList ++ '"' :: rest)
            from by
            rw [show renderV lvl (JSON.str s) = ('"' :: escList s.toList) ++ ['"'] from rfl]
            simp [List.cons_append, List.append_assoc]]
        exact skipWs_cons_of_not_ws '"' _ (by decide)
      rw [parseVal.eq_def]
      simp [hsk]
      exact ⟨s.data, parseStrBody_escList s.data rest, by cases s; rfl⟩
    | arr xs =>
      cases xs with
      | nil =>
        have hsk : skipWs (W ++ (renderV lvl (JSON.arr []) ++ rest)) = '[' :: (']' :: rest) := by
          rw [skipWs_wsOnly_append W _ hW]
          exact skipWs_cons_of_not_ws '[' _ (by decide)
        have hsk2 : skipWs (']' :: rest) = ']' :: rest :=
          skipWs_cons_of_not_ws ']' _ (by decide)
        rw [parseVal.eq_def]
        simp [hsk, hsk2]
      | cons x xs' =>
        have hshape : renderV lvl (JSON.arr (x :: xs')) ++ rest =
            '[' :: ('\n' :: (renderItems (lvl + 1) (x :: xs') ++
              ('\n' :: (wsPad lvl ++ (']' :: rest))))) := by
          rw [show renderV lvl (JSON.arr (x :: xs')) =
            '[' :: '\n' :: ((renderItems (lvl + 1) (x :: xs') ++ ('\n' :: wsPad lvl)) ++ [']'])
            from rfl]
          simp [List.cons_append, List.append_assoc]
        have hsk : skipWs (W ++ (renderV lvl (JSON.arr (x :: xs')) ++ rest)) =
            '[' :: ('\n' :: (renderItems (lvl + 1) (x :: xs') ++
              ('\n' :: (wsPad lvl ++ (']' :: rest))))) := by
          rw [skipWs_wsOnly_append W _ hW, hshape]
          exact skipWs_cons_of_not_ws '[' _ (by decide)
        obtain ⟨c0, U0, hRI, hws0, hne0, _⟩ :=
          skipWs_renderItems_append (lvl + 1) x xs' ('\n' :: (wsPad lvl ++ (']' :: rest)))
        have hsk3 : skipWs ('\n' :: (renderItems (lvl + 1) (x :: xs') ++
            ('\n' :: (wsPad lvl ++ (']' :: rest))))) = c0 :: U0 := by
          rw [skipWs_cons_of_ws '\n' _ (by decide), hRI]
        have hIt : parseItems f ('\n' :: (renderItems (lvl + 1) (x :: xs') ++
            ('\n' :: (wsPad lvl ++ (']' :: rest))))) = some (x :: xs', rest) :=
          IHitems x xs' (lvl + 1) lvl ['\n'] rest
            (by intro c hc; simp at hc; rw [hc]; rfl)
            (by simp only [szJ] at hsz; omega) hrest
        rw [parseVal.eq_def]
        simp only [hsk]
        simp only [hsk3]
        simp
        split
        · rename_i r heq
          exact absurd (List.head_eq_of_cons_eq heq) hne0
        · simp [hIt]
    | obj kvs =>
      cases kvs with
      | nil =>
        have hsk : skipWs (W ++ (renderV lvl (JSON.obj []) ++ rest)) = '{' :: ('}' :: rest) := by
          rw [skipWs_wsOnly_append W _ hW]
          exact skipWs_cons_of_not_ws '{' _ (by decide)
        have hsk2 : skipWs ('}' :: rest) = '}' :: rest :=
          skipWs_cons_of_not_ws '}' _ (by decide)
        rw [parseVal.eq_def]
        simp [hsk, hsk2]
      | cons kv kvs' =>
        obtain ⟨k, v⟩ := kv
        have hshape : renderV lvl (JSON.obj ((k, v) :: kvs')) ++ rest =
            '{' :: ('\n' :: (renderMembers (lvl + 1) ((k, v) :: kvs') ++
              ('\n' :: (wsPad lvl ++ ('}' :: rest))))) := by
          rw [show renderV lvl (JSON.obj ((k, v) :: kvs')) =
            '{' :: '\n' :: ((renderMembers (lvl + 1) ((k, v) :: kvs') ++
              ('\n' :: wsPad lvl)) ++ ['}']) from rfl]
          simp [List.cons_append, List.append_assoc]
        have hsk : skipWs (W ++ (renderV lvl (JSON.obj ((k, v) :: kvs')) ++ rest)) =
            '{' :: ('\n' :: (renderMembers (lvl + 1) ((k, v) :: kvs') ++
              ('\n' :: (wsPad lvl ++ ('}' :: rest))))) := by
          rw [skipWs_wsOnly_append W _ hW, hshape]
          exact skipWs_cons_of_not_ws '{' _ (by decide)
        obtain ⟨U0, hRM⟩ :=
          skipWs_renderMembers_append (lvl + 1) k v kvs' ('\n' :: (wsPad lvl ++ ('}' :: rest)))
        have hsk3 : skipWs ('\n' :: (renderMembers (lvl + 1) ((k, v) :: kvs') ++
            ('\n' :: (wsPad lvl ++ ('}' :: rest))))) = '"' :: U0 := by
          rw [skipWs_cons_of_ws '\n' _ (by decide), hRM]
        have hMem : parseMembers f ('\n' :: (renderMembers (lvl + 1) ((k, v) :: kvs') ++
            ('\n' :: (wsPad lvl ++ ('}' :: rest))))) = some ((k, v) :: kvs', rest) :=
          IHmem k v kvs' (lvl + 1) lvl ['\n'] rest
            (by intro c hc; simp at hc; rw [hc]; rfl)
            (by simp only [szJ] at hsz; omega) hrest
        rw [parseVal.eq_def]
        simp only [hsk]
        simp only [hsk3]
        simp
        simp [hMem]
  · -- array items
    intro x xs lvl lvl0 W rest hW hsz hrest
    have hWpad : ∀ c ∈ W ++ wsPad lvl, isWsChar c = true := by
      intro c hc
      rcases List.mem_append.mp hc with h | h
      · exact hW c h
      · exact wsPad_wsOnly lvl c h
    cases xs with
    | nil =>
      have hcs : W ++ (renderItems lvl [x] ++ ('\n' :: (wsPad lvl0 ++ (']' :: rest)))) =
          (W ++ wsPad lvl) ++ (renderV lvl x ++ ('\n' :: (wsPad lvl0 ++ (']' :: rest)))) := by
        rw [renderItems_single]
        simp [List.append_assoc]
      have hA : parseVal f
          ((W ++ wsPad lvl) ++ (renderV lvl x ++ ('\n' :: (wsPad lvl0 ++ (']' :: rest))))) =
          some (x, '\n' :: (wsPad lvl0 ++ (']' :: rest))) :=
        IHval x lvl (W ++ wsPad lvl) ('\n' :: (wsPad lvl0 ++ (']' :: rest))) hWpad
          (by simp only [szL] at hsz; omega) rfl
      have hsk3 : skipWs ('\n' :: (wsPad lvl0 ++ (']' :: rest))) = ']' :: rest := by
        rw [skipWs_cons_of_ws '\n' _ (by decide), skipWs_wsPad_append]
        exact skipWs_cons_of_not_ws ']' _ (by decide)
      rw [List.append_assoc] at hA
      rw [parseItems.eq_def, hcs]
      simp [hA, hsk3]
    | cons y ys =>
      have hcs : W ++ (renderItems lvl (x :: y :: ys) ++ ('\n' :: (wsPad lvl0 ++ (']' :: rest)))) =
          (W ++ wsPad lvl) ++ (renderV lvl x ++ (',' :: '\n' ::
            (renderItems lvl (y :: ys) ++ ('\n' :: (wsPad lvl0 ++ (']' :: rest)))))) := by
        rw [renderItems_cons2]
        simp [List.cons_append, List.append_assoc]
      have hA : parseVal f
          ((W ++ wsPad lvl) ++ (renderV lvl x ++ (',' :: '\n' ::
            (renderItems lvl (y :: ys) ++ ('\n' :: (wsPad lvl0 ++ (']' :: rest))))))) =
          some (x, ',' :: '\n' ::
            (renderItems lvl (y :: ys) ++ ('\n' :: (wsPad lvl0 ++ (']' :: rest))))) :=
        IHval x lvl (W ++ wsPad lvl) _ hWpad
          (by simp only [szL] at hsz; omega) rfl
      have hsk4 : skipWs (',' :: '\n' ::
          (renderItems lvl (y :: ys) ++ ('\n' :: (wsPad lvl0 ++ (']' :: rest))))) =
          ',' :: '\n' ::
          (renderItems lvl (y :: ys) ++ ('\n' :: (wsPad lvl0 ++ (']' :: rest)))) :=
        skipWs_cons_of_not_ws ',' _ (by decide)
      have hIt : parseItems f ('\n' ::
          (renderItems lvl (y :: ys) ++ ('\n' :: (wsPad lvl0 ++ (']' :: rest))))) =
          some (y :: ys, rest) :=
        IHitems y ys lvl lvl0 ['\n'] rest
          (by intro c hc; simp at hc; rw [hc]; rfl)
          (by simp only [szL] at hsz ⊢; omega) hrest
      rw [List.append_assoc] at hA
      rw [parseItems.eq_def, hcs]
      simp [hA, hsk4, hIt]
  · -- object members
    intro k v kvs lvl lvl0 W rest hW hsz hrest
    cases kvs with
    | nil =>
      have hsk : skipWs (W ++ (renderMembers lvl [(k, v)] ++
          ('\n' :: (wsPad lvl0 ++ ('}' :: rest))))) =
          '"' :: (escList k.data ++ '"' ::
            (':' :: ' ' :: (renderV lvl v ++ ('\n' :: (wsPad lvl0 ++ ('}' :: rest)))))) := by
        rw [skipWs_wsOnly_append W _ hW, renderMembers_single, List.append_assoc,
          skipWs_wsPad_append, List.cons_append, skipWs_cons_of_not_ws _ _ (by decide)]
        simp [List.cons_append, List.append_assoc]
      have hSB : parseStrBody (escList k.data ++ '"' ::
          (':' :: ' ' :: (renderV lvl v ++ ('\n' :: (wsPad lvl0 ++ ('}' :: rest)))))) =
          some (k.data,
            ':' :: ' ' :: (renderV lvl v ++ ('\n' :: (wsPad lvl0 ++ ('}' :: rest))))) :=
        parseStrBody_escList k.data _
      have hsk2 : skipWs (':' :: ' ' ::
          (renderV lvl v ++ ('\n' :: (wsPad lvl0 ++ ('}' :: rest))))) =
          ':' :: ' ' :: (renderV lvl v ++ ('\n' :: (wsPad lvl0 ++ ('}' :: rest)))) :=
        skipWs_cons_of_not_ws ':' _ (by decide)
      have hA : parseVal f (' ' :: (renderV lvl v ++ ('\n' :: (wsPad lvl0 ++ ('}' :: rest))))) =
          some (v, '\n' :: (wsPad lvl0 ++ ('}' :: rest))) :=
        IHval v lvl [' '] ('\n' :: (wsPad lvl0 ++ ('}' :: rest)))
          (by intro c hc; simp at hc; rw [hc]; rfl)
          (by simp only [szM] at hsz; omega) rfl
      have hsk3 : skipWs ('\n' :: (wsPad lvl0 ++ ('}' :: rest))) = '}' :: rest := by
        rw [skipWs_cons_of_ws '\n' _ (by decide), skipWs_wsPad_append]
        exact skipWs_cons_of_not_ws '}' _ (by decide)
      rw [parseMembers.eq_def]
      simp [hsk, hSB, hsk2, hA, hsk3, string_mk_data]
    | cons p kvs' =>
      obtain ⟨k2, v2⟩ := p
      have hsk : skipWs (W ++ (renderMembers lvl ((k, v) :: (k2, v2) :: kvs') ++
          ('\n' :: (wsPad lvl0 ++ ('}' :: rest))))) =
          '"' :: (escList k.data ++ '"' ::
            (':' :: ' ' :: (renderV lvl v ++ (',' :: '\n' ::
              (renderMembers lvl ((k2, v2) :: kvs') ++
                ('\n' :: (wsPad lvl0 ++ ('}' :: rest)))))))) := by
        rw [skipWs_wsOnly_append W _ hW, renderMembers_cons2, List.append_assoc,
          skipWs_wsPad_append, List.cons_append, skipWs_cons_of_not_ws _ _ (by decide)]
        simp [List.cons_append, List.append_assoc]
      have hSB : parseStrBody (escList k.data ++ '"' ::
          (':' :: ' ' :: (renderV lvl v ++ (',' :: '\n' ::
            (renderMembers lvl ((k2, v2) :: kvs') ++
              ('\n' :: (wsPad lvl0 ++ ('}' :: rest)))))))) =
          some (k.data,
            ':' :: ' ' :: (renderV lvl v ++ (',' :: '\n' ::
              (renderMembers lvl ((k2, v2) :: kvs') ++
                ('\n' :: (wsPad lvl0 ++ ('}' :: rest))))))) :=
        parseStrBody_escList k.data _
      have hsk2 : skipWs (':' :: ' ' :: (renderV lvl v ++ (',' :: '\n' ::
          (renderMembers lvl ((k2, v2) :: kvs') ++
            ('\n' :: (wsPad lvl0 ++ ('}' :: rest))))))) =
          ':' :: ' ' :: (renderV lvl v ++ (',' :: '\n' ::
          (renderMembers lvl ((k2, v2) :: kvs') ++
            ('\n' :: (wsPad lvl0 ++ ('}' :: rest)))))) :=
        skipWs_cons_of_not_ws ':' _ (by decide)
      have hA : parseVal f (' ' :: (renderV lvl v ++ (',' :: '\n' ::
          (renderMembers lvl ((k2, v2) :: kvs') ++
            ('\n' :: (wsPad lvl0 ++ ('}' :: rest))))))) =
          some (v, ',' :: '\n' ::
            (renderMembers lvl ((k2, v2) :: kvs') ++
              ('\n' :: (wsPad lvl0 ++ ('}' :: rest))))) :=
        IHval v lvl [' '] _
          (by intro c hc; simp at hc; rw [hc]; rfl)
          (by simp only [szM] at hsz; omega) rfl
      have hsk4 : skipWs (',' :: '\n' ::
          (renderMembers lvl ((k2, v2) :: kvs') ++
            ('\n' :: (wsPad lvl0 ++ ('}' :: rest))))) =
          ',' :: '\n' ::
          (renderMembers lvl ((k2, v2) :: kvs') ++
            ('\n' :: (wsPad lvl0 ++ ('}' :: rest)))) :=
        skipWs_cons_of_not_ws ',' _ (by decide)
      have hMem : parseMembers f ('\n' ::
          (renderMembers lvl ((k2, v2) :: kvs') ++
            ('\n' :: (wsPad lvl0 ++ ('}' :: rest))))) =
          some ((k2, v2) :: kvs', rest) :=
        IHmem k2 v2 kvs' lvl lvl0 ['\n'] rest
          (by intro c hc; simp at hc; rw [hc]; rfl)
          (by simp only [szM] at hsz ⊢; omega) hrest
      rw [parseMembers.eq_def]
      simp [hsk, hSB, hsk2, hA, hsk4, hMem, string_mk_data]

theorem sz_le_renderLen (n : Nat) :
    (∀ (v : JSON) (lvl : Nat), szJ v ≤ n → szJ v ≤ (renderV lvl v).length) ∧
    (∀ (x : JSON) (xs : List JSON) (lvl : Nat), szL (x :: xs) ≤ n →
      szL (x :: xs) ≤ (renderItems lvl (x :: xs)).length + 2) ∧
    (∀ (k : String) (v : JSON) (kvs : List (String × JSON)) (lvl : Nat),
      szM ((k, v) :: kvs) ≤ n →
      szM ((k, v) :: kvs) ≤ (renderMembers lvl ((k, v) :: kvs)).length + 2) := by
  induction n using Nat.strong_induction_on with
  | _ n IH =>
  have hAn : ∀ (v : JSON) (lvl : Nat), szJ v ≤ n → szJ v ≤ (renderV lvl v).length := by
    intro v lvl hv
    cases v with
    | null =>
      rw [show renderV lvl JSON.null = ['n', 'u', 'l', 'l'] from rfl]
      simp [szJ]
    | bool b =>
      cases b with
      | true =>
        rw [show renderV lvl (JSON.bool true) = ['t', 'r', 'u', 'e'] from rfl]
        simp [szJ]
      | false =>
        rw [show renderV lvl (JSON.bool false) = ['f', 'a', 'l', 's', 'e'] from rfl]
        simp [szJ]
    | num nn =>
      obtain ⟨c, T, hct, _⟩ := renderInt_head nn
      rw [show renderV lvl (JSON.num nn) = renderInt nn from rfl, hct]
      simp [szJ]
    | str s =>
      rw [show renderV lvl (JSON.str s) = ('"' :: escList s.toList) ++ ['"'] from rfl]
      simp [szJ]
    | arr xs =>
      cases xs with
      | nil =>
        rw [show renderV lvl (JSON.arr []) = ['[', ']'] from rfl]
        simp [szJ, szL]
      | cons x xs' =>
        have hn1 : n - 1 < n := by
          simp only [szJ] at hv
          have := szL_pos (x :: xs')
          omega
        have hsz' : szL (x :: xs') ≤ n - 1 := by
          simp only [szJ] at hv
          omega
        have hB := (IH (n - 1) hn1).2.1 x xs' (lvl + 1) hsz'
        rw [show renderV lvl (JSON.arr (x :: xs')) =
          '[' :: '\n' :: ((renderItems (lvl + 1) (x :: xs') ++ ('\n' :: wsPad lvl)) ++ [']'])
          from rfl]
        simp only [szJ, List.length_cons, List.length_append, wsPad, List.length_replicate]
        omega
    | obj kvs =>
      cases kvs with
      | nil =>
        rw [show renderV lvl (JSON.obj []) = ['{', '}'] from rfl]
        simp [szJ, szM]
      | cons kv kvs' =>
        obtain ⟨k, v⟩ := kv
        have hn1 : n - 1 < n := by
          simp only [szJ] at hv
          have := szM_pos ((k, v) :: kvs')
          omega
        have hsz' : szM ((k, v) :: kvs') ≤ n - 1 := by
          simp only [szJ] at hv
          omega
        have hC := (IH (n - 1) hn1).2.2 k v kvs' (lvl + 1) hsz'
        rw [show renderV lvl (JSON.obj ((k, v) :: kvs')) =
          '{' :: '\n' :: ((renderMembers (lvl + 1) ((k, v) :: kvs') ++ ('\n' :: wsPad lvl)) ++
            ['}']) from rfl]
        simp only [szJ, List.length_cons, List.length_append, wsPad, List.length_replicate]
        omega
  have hBn : ∀ (x : JSON) (xs : List JSON) (lvl : Nat), szL (x :: xs) ≤ n →
      szL (x :: xs) ≤ (renderItems lvl (x :: xs)).length + 2 := by
    intro x xs lvl hxs
    cases xs with
    | nil =>
      have hx : szJ x ≤ n := by
        simp only [szL] at hxs
        omega
      have hxA := hAn x lvl hx
      rw [renderItems_single]
      simp only [szL, List.length_append, wsPad, List.length_replicate]
      omega
    | cons y ys =>
      have hx : szJ x ≤ n := by
        simp only [szL] at hxs
        have := szL_pos (y :: ys)
        omega
      have hxA := hAn x lvl hx
      have hn1 : n - 1 < n := by
        simp only [szL] at hxs
        have := szJ_pos x
        have := szL_pos (y :: ys)
        omega
      have htail : szL (y :: ys) ≤ n - 1 := by
        have e2 : szL (y :: ys) = 1 + szJ y + szL ys := rfl
        simp only [szL] at hxs
        have := szJ_pos x
        omega
      have hB := (IH (n - 1) hn1).2.1 y ys lvl htail
      have e1 : szL (x :: y :: ys) = 1 + szJ x + szL (y :: ys) := rfl
      rw [renderItems_cons2]
      simp only [List.length_append, List.length_cons, wsPad, List.length_replicate]
      omega
  have hCn : ∀ (k : String) (v : JSON) (kvs : List (String × JSON)) (lvl : Nat),
      szM ((k, v) :: kvs) ≤ n →
      szM ((k, v) :: kvs) ≤ (renderMembers lvl ((k, v) :: kvs)).length + 2 := by
    intro k v kvs lvl hkvs
    cases kvs with
    | nil =>
      have hx : szJ v ≤ n := by
        simp only [szM] at hkvs
        omega
      have hxA := hAn v lvl hx
      rw [renderMembers_single]
      simp only [szM, List.length_append, List.length_cons, wsPad, List.length_replicate]
      omega
    | cons p kvs' =>
      obtain ⟨k2, v2⟩ := p
      have hx : szJ v ≤ n := by
        simp only [szM] at hkvs
        have := szM_pos ((k2, v2) :: kvs')
        omega
      have hxA := hAn v lvl hx
      have hn1 : n - 1 < n := by
        simp only [szM] at hkvs
        have := szJ_pos v
        have := szM_pos ((k2, v2) :: kvs')
        omega
      have htail : szM ((k2, v2) :: kvs') ≤ n - 1 := by
        have e2 : szM ((k2, v2) :: kvs') = 1 + szJ v2 + szM kvs' := rfl
        simp only [szM] at hkvs
        have := szJ_pos v
        omega
      have hC := (IH (n - 1) hn1).2.2 k2 v2 kvs' lvl htail
      have e1 : szM ((k, v) :: (k2, v2) :: kvs') = 1 + szJ v + szM ((k2, v2) :: kvs') := rfl
      rw [renderMembers_cons2]
      simp only [List.length_append, List.length_cons, wsPad, List.length_replicate]
      omega
  exact ⟨hAn, hBn, hCn⟩

theorem szJ_le_render_length (v : JSON) (lvl : Nat) : szJ v ≤ (renderV lvl v).length :=
  (sz_le_renderLen (szJ v)).1 v lvl (le_refl _)

theorem parseTop_renderTop (v : JSON) : parseTop (renderTop v) = some v := by
  unfold parseTop renderTop
  have hl : (String.mk (renderV 0 v)).toList = renderV 0 v := rfl
  rw [hl]
  have hmain := (parse_render_main ((renderV 0 v).length + 1)).1 v 0 [] []
    (by intro c hc; simp at hc)
    (by have := szJ_le_render_length v 0; omega)
    rfl
  rw [show ([] : List Char) ++ (renderV 0 v ++ []) = renderV 0 v from by simp] at hmain
  rw [hmain]
  rfl

/-- C5: round-trip of serialization: for every output the stripping stage can
produce, parsing (with the `json.load` model) the exact text the Writer
produces (pretty-printed with two-space indentation and literal non-ASCII)
yields the very same document back: serialization followed by parsing loses
nothing beyond the already-removed embedding fields. -/
theorem writer_round_trip (data out : List JSON) (h : stripDoc data = .ok out) :
    parseTop (renderTop (.arr out)) = some (.arr out) :=
  parseTop_renderTop (.arr out)

theorem writer_round_trip_witness :
    parseTop (renderTop (.arr [JSON.obj [("q", .str "A")]])) =
      some (.arr [JSON.obj [("q", .str "A")]]) :=
  writer_round_trip [JSON.obj [("q", .str "A"), ("embedding", .arr [.num 1])]]
    [JSON.obj [("q", .str "A")]] rfl
